import Mathlib

/-! # Verification of the `cypher` query-builder library

A shallow embedding of the active code of the repository
(`cypher/props.py`, `cypher/models.py`, `cypher/comparisons.py`,
`cypher/query.py`) together with proofs about the claims of the
specification.

Conventions of the embedding:

* Python runtime exceptions are modelled with `Except PyErr`; a Python
  function that can raise returns `Except PyErr α`.
* Python `str` is `String`, Python `int` is `Int` (the claims never hit
  an overflow boundary, Python ints are unbounded), Python sets of
  strings are `Finset String`.
* The mutable state of a `Query` object is passed and returned
  explicitly; a method that mutates `self` and can raise becomes a
  function `Query → ... → Except PyErr Query`.
* The `details` dictionary of a `Query` is embedded as its lookup
  function `String → ModelDetails` (the builder registers a variable
  before it is ever looked up).
-/

/-- Python exceptions that the embedded code can raise. -/
inductive PyErr where
  | typeError
  | valueError (msg : String)
  | indexError
  | stopIteration
  | attributeError (attr : String)
  | notImplementedError
  deriving DecidableEq, Repr

/-- A primitive Python value, as far as the claims need them. -/
inductive PyVal where
  | pyNone
  | pyStr (s : String)
  | pyInt (n : Int)
  | pyBool (b : Bool)
  deriving DecidableEq, Repr

/-! ## Variable and path generators (`query.py`, `generate_paths` /
`generate_variables`) -/

/-- `generate_paths`: the n-th generated path name (0-based) is
`"_p" + str(n+1)` — the Python generator yields `"_p1", "_p2", ...`. -/
def pathAt (n : Nat) : String :=
  "_p" ++ Nat.repr (n + 1)

/-- The lowercase alphabet, the `string.ascii_lowercase` iterated by
`itertools.product` in `generate_variables`. -/
def asciiLowercase : List Char :=
  ['a', 'b', 'c', 'd', 'e', 'f', 'g', 'h', 'i', 'j', 'k', 'l', 'm',
   'n', 'o', 'p', 'q', 'r', 's', 't', 'u', 'v', 'w', 'x', 'y', 'z']

/-- `itertools.product(ascii_lowercase, repeat=i)` in yield order:
the leftmost letter varies slowest. -/
def lettersOfLen : Nat → List (List Char)
  | 0 => [[]]
  | i + 1 => asciiLowercase.flatMap (fun c => (lettersOfLen i).map (c :: ·))

/-- One block of `generate_variables`: the words of length `i`, keeping
only those whose first letter is not `'p'`, each prefixed with `'_'`
(`if not letters[0] == 'p': yield '_' + ''.join(letters)`). -/
def varBlock (i : Nat) : List String :=
  ((lettersOfLen i).filter (fun w => w.head? ≠ some 'p')).map
    (fun w => String.mk ('_' :: w))

theorem lettersOfLen_length (i : Nat) : (lettersOfLen i).length = 26 ^ i := by
  induction i with
  | zero => rfl
  | succ i ih =>
    simp [lettersOfLen, List.length_flatMap, Function.comp, ih, asciiLowercase,
      pow_succ]
    ring

theorem mem_lettersOfLen {i : Nat} {w : List Char} (h : w ∈ lettersOfLen i) :
    w.length = i ∧ ∀ c ∈ w, c ∈ asciiLowercase := by
  induction i generalizing w with
  | zero =>
    simp [lettersOfLen] at h
    simp [h]
  | succ i ih =>
    simp only [lettersOfLen, List.mem_flatMap, List.mem_map] at h
    obtain ⟨c, hc, w', hw', rfl⟩ := h
    obtain ⟨hl, hmem⟩ := ih hw'
    refine ⟨by simp [hl], ?_⟩
    intro d hd
    rcases List.mem_cons.mp hd with rfl | hd
    · exact hc
    · exact hmem d hd

theorem replicate_a_mem_lettersOfLen (i : Nat) :
    List.replicate i 'a' ∈ lettersOfLen i := by
  induction i with
  | zero => simp [lettersOfLen]
  | succ i ih =>
    simp only [lettersOfLen, List.mem_flatMap]
    exact ⟨'a', by simp [asciiLowercase], by
      simp only [List.mem_map]
      exact ⟨List.replicate i 'a', ih, rfl⟩⟩

theorem varBlock_ne_nil (i : Nat) : varBlock (i + 1) ≠ [] := by
  have h : List.replicate (i + 1) 'a' ∈
      (lettersOfLen (i + 1)).filter (fun w => w.head? ≠ some 'a' → True) := by
    simp [replicate_a_mem_lettersOfLen]
  intro hnil
  have hmem : List.replicate (i + 1) 'a' ∈
      (lettersOfLen (i + 1)).filter (fun w => decide (w.head? ≠ some 'p')) := by
    refine List.mem_filter.mpr ⟨replicate_a_mem_lettersOfLen (i + 1), ?_⟩
    simp [List.replicate]
  have : ((lettersOfLen (i + 1)).filter
      (fun w => decide (w.head? ≠ some 'p'))).map
        (fun w => String.mk ('_' :: w)) ≠ [] := by
    intro hmapnil
    rw [List.map_eq_nil_iff] at hmapnil
    rw [hmapnil] at hmem
    exact List.not_mem_nil _ hmem
  exact this hnil

/-- `generate_variables` flattened: the n-th variable (0-based) of the
infinite stream, found by walking the blocks of word length
`i+1, i+2, ...` (the stream starts at block length 1, after
`for i in itertools.count(1)`).  `fuel` only forces termination; every
block is non-empty, so `fuel = n + 1` always suffices (see
`varGo_mem_varBlock`). -/
def varGo : Nat → Nat → Nat → String
  | 0, _, _ => ""
  | fuel + 1, n, i =>
    if n < (varBlock (i + 1)).length then (varBlock (i + 1)).getD n ""
    else varGo fuel (n - (varBlock (i + 1)).length) (i + 1)

/-- The n-th auto-generated variable (0-based): `"_a", "_b", ..., "_o",
"_q", ..., "_z", "_aa", ...` — names starting with `"_p"` are skipped. -/
def varAt (n : Nat) : String :=
  varGo (n + 1) n 0

theorem varGo_mem_varBlock :
    ∀ fuel n i, n < fuel → ∃ k, i ≤ k ∧ varGo fuel n i ∈ varBlock (k + 1) := by
  intro fuel
  induction fuel with
  | zero => omega
  | succ fuel ih =>
    intro n i hn
    by_cases h : n < (varBlock (i + 1)).length
    · refine ⟨i, le_refl i, ?_⟩
      simp only [varGo, if_pos h]
      rw [List.getD_eq_getElem _ _ h]
      exact List.getElem_mem h
    · have hpos : 0 < (varBlock (i + 1)).length :=
        List.length_pos.mpr (varBlock_ne_nil i)
      have hlt : n - (varBlock (i + 1)).length < fuel := by omega
      obtain ⟨k, hk, hmem⟩ := ih (n - (varBlock (i + 1)).length) (i + 1) hlt
      exact ⟨k, by omega, by simpa [varGo, if_neg h] using hmem⟩

example : varAt 0 = "_a" := by decide
example : varAt 14 = "_o" := by decide
example : varAt 15 = "_q" := by decide
example : pathAt 0 = "_p1" := rfl

/-! ## Properties (`props.py`) -/

/-- `props.BaseProp`: configuration of a property descriptor.  The class
attributes `types` and `rules` are embedded as the decidable checks they
perform (`isinstance(value, t) for t in types` resp. `rule(value)`).
Note that neither `BaseProp` nor any of its subclasses in `props.py`
defines an attribute called `value_type`; the embedding therefore has no
such field, and the `prop.value_type` lookup performed by
`Model.__init__` (models.py, line 50) is an `AttributeError`. -/
structure BaseProp where
  typesOK : PyVal → Bool
  rulesOK : PyVal → Bool
  required : Bool := true
  default : Option PyVal := none

/-- `Props.String`: `types = (str,)`, no rules. -/
def stringProp (required : Bool := true) (default : Option PyVal := none) :
    BaseProp :=
  { typesOK := fun v => match v with | .pyStr _ => true | _ => false
    rulesOK := fun _ => true
    required := required
    default := default }

/-- `Props.Integer`: `types = (int,)` (`bool` is a subtype of `int` in
Python, so booleans pass the isinstance check), with the two Neo4j
64-bit bound rules. -/
def integerProp (required : Bool := true) (default : Option PyVal := none) :
    BaseProp :=
  { typesOK := fun v => match v with
      | .pyInt _ => true
      | .pyBool _ => true
      | _ => false
    rulesOK := fun v => match v with
      | .pyInt n => decide (n < 9223372036854775808) &&
          decide (-9223372036854775808 ≤ n)
      | _ => true
    required := required
    default := default }

/-! ## Models (`models.py`) -/

/-- The model-level data of a `Node`/`Edge` subclass that the query
builder reads: its `__name__`, whether it is exactly the base class
`Node` or `Edge` (`self.type is Edge or self.type is Node` in
`ModelDetails.get_labels`), its `Meta.primary_key`, and its declared
property descriptors in `dir()` order (sorted by name). -/
structure ModelType where
  name : String
  isBase : Bool := false
  primary_key : Option String := none
  props : List (String × BaseProp) := []

/-- A constructed `Model` instance, as far as the query builder reads
it: its type, its label set (`self._labels`, a Python `set`) and its
stored attribute values. -/
structure ModelInstance where
  type : ModelType
  labels : Finset String
  attrs : List (String × PyVal) := []

/-- The base class `Node` (used as the wildcard: `identifier or Node`). -/
def nodeBase : ModelType := { name := "Node", isBase := true }

/-- The base class `Edge` (used as the wildcard: `identifier or Edge`). -/
def edgeBase : ModelType := { name := "Edge", isBase := true }

/-- An argument passed to `Query.match` / `connected_through` / ...:
a model instance, a `Node`/`Edge` subclass, some other class, or a
non-class object.  A non-class object carries its Python truthiness:
`42` or `"abc"` are truthy, `0`, `''`, `False`, `[]`, `{}` are falsy.
(Model instances and classes are always truthy: `Model` defines neither
`__bool__` nor `__len__`.  `None` is modelled by the caller's
`Option`.) -/
inductive Identifier where
  | inst (m : ModelInstance)
  | modelType (t : ModelType)
  | otherClass (name : String)
  | nonClass (truthy : Bool)

/-- Is the identifier accepted by `ModelDetails.__init__`? -/
def Identifier.isModelKind : Identifier → Bool
  | .inst _ => true
  | .modelType _ => true
  | _ => false

/-- Python truthiness of the identifier, as tested by
`identifier or Node` / `identifier or Edge`. -/
def Identifier.truthy : Identifier → Bool
  | .inst _ => true
  | .modelType _ => true
  | .otherClass _ => true
  | .nonClass t => t

/-- `identifier or Node` (resp. `or Edge`): `None` — and every other
falsy identifier, such as `0`, `''`, `False`, `[]` or `{}` — is
silently replaced by the wildcard base class. -/
def pyOrType (identifier : Option Identifier) (base : ModelType) :
    Identifier :=
  match identifier with
  | none => .modelType base
  | some i => if i.truthy then i else .modelType base

/-- `models.ModelDetails`: `var`, `type`, `instance`, `conn`. -/
structure ModelDetails where
  var : String
  type : ModelType
  inst : Option ModelInstance := none
  conn : Option (Option Int × Option Int) := none

/-- `ModelDetails.__init__`: an instance keeps itself and its type, a
`Node`/`Edge` subclass keeps only the type; everything else raises
`TypeError` (either the explicit `raise TypeError` or the `TypeError`
that `issubclass` raises on a non-class argument). -/
def ModelDetails.init (identifier : Identifier) (var : String)
    (conn : Option (Option Int × Option Int) := none) :
    Except PyErr ModelDetails :=
  match identifier with
  | .inst m => .ok { var := var, type := m.type, inst := some m, conn := conn }
  | .modelType t => .ok { var := var, type := t, inst := none, conn := conn }
  | .otherClass _ => .error .typeError
  | .nonClass _ => .error .typeError

/-- `ModelDetails.get_labels`: the sorted labels of the instance if
there is one, `[]` for the bare `Node`/`Edge` classes, and the class
name otherwise. -/
def ModelDetails.get_labels (d : ModelDetails) : List String :=
  match d.inst with
  | some m => m.labels.sort (· ≤ ·)
  | none => if d.type.isBase then [] else [d.type.name]

/-- `ModelDetails.get_var_and_labels`:
`':'.join((self.var, *self.get_labels()))`. -/
def ModelDetails.get_var_and_labels (d : ModelDetails) : String :=
  String.intercalate ":" (d.var :: d.get_labels)

/-- An entry of the iterable assigned to `Model.labels`: either a
string or a value of some other type. -/
inductive LabelEntry where
  | str (s : String)
  | nonStr

/-- Is the entry a string (`isinstance(name, str)`)? -/
def LabelEntry.isStr : LabelEntry → Bool
  | .str _ => true
  | .nonStr => false

/-- The strings among the entries. -/
def labelStrings (value : List LabelEntry) : Finset String :=
  (value.filterMap (fun e => match e with
    | .str s => some s
    | .nonStr => none)).toFinset

/-- The `Model.labels` setter: a non-string entry raises `TypeError`,
otherwise `self._labels = {self.__class__.__name__, *value}`. -/
def setLabels (typeName : String) (value : List LabelEntry) :
    Except PyErr (Finset String) :=
  if value.all (fun e => e.isStr) then
    .ok (insert typeName (labelStrings value))
  else
    .error .typeError

/-- `Model.__init__` (models.py, lines 35-66), for one instance of a
concrete model type.  `model_props` iterates the descriptors in
`dir(cls)` order; for each one `value = kwargs.get(name, prop.default)`.
A present value reaches `prop.value_type.normalize(value)` — but no
`BaseProp` defines `value_type`, so this lookup raises
`AttributeError('value_type')`.  An absent value of a non-required
property stores `None`; an absent value of a required property raises
`ValueError` naming the class and the property. -/
def modelInit (cls : ModelType) (kwargs : List (String × PyVal)) :
    Except PyErr (List (String × Option PyVal)) := do
  let step := fun (acc : List (String × Option PyVal))
      (p : String × BaseProp) => do
    let (name, prop) := p
    let value : Option PyVal :=
      match kwargs.lookup name with
      | some v => some v
      | none => prop.default
    match value with
    | some _ => throw (PyErr.attributeError "value_type")
    | none =>
      if !prop.required then
        pure (acc ++ [(name, (none : Option PyVal))])
      else
        throw (PyErr.valueError
          ("Cannot initialize a `" ++ cls.name ++ "` without `" ++ name ++ "`"))
  cls.props.foldlM step []

/-! ## Comparisons (`comparisons.py` / `props.BaseProp._comparison_creator`) -/

/-- `comparisons.Comparison.stringify`:
`'{}.{} {} {}'.format(self.var, self.prop, self.operator, self.value)`.
`self.value` is the already-cypherified right-hand side. -/
def comparisonStringify (var prop operator value : String) : String :=
  var ++ "." ++ prop ++ " " ++ operator ++ " " ++ value

/-- `next(gen)` on a generator expression: the first produced element,
or `StopIteration` if the generator is exhausted immediately. -/
def pyNext : List α → Except PyErr α
  | [] => .error .stopIteration
  | x :: _ => .ok x

/-- The scan `next(name for name in dir(obj) if getattr(obj, name) is
self)` from `BaseProp._comparison_creator`, over an explicit attribute
table of `obj`: `(attribute name, is this attribute the descriptor we
are looking for)`. -/
def attrScan (table : List (String × Bool)) : Except PyErr String :=
  pyNext ((table.filter (fun p => p.2)).map (fun p => p.1))

/-- `dir()` of the `details` dictionary of a `Query` (a plain `dict`):
only the methods of `dict`, none of which is a `BaseProp` descriptor.
(The dunder attributes, also not descriptors, are omitted.) -/
def detailsDictDir : List (String × Bool) :=
  [("clear", false), ("copy", false), ("fromkeys", false), ("get", false),
   ("items", false), ("keys", false), ("pop", false), ("popitem", false),
   ("setdefault", false), ("update", false), ("values", false)]

/-- The closure produced by `props.BaseProp._comparison_creator` (used
for `Prop == value`, `Prop > value`, `Prop @ value`), applied to the two
arguments `MatchingChain.add_condition` actually passes: the `details`
dictionary of the query and the last element's variable.  The closure
runs `next(name for name in dir(model_type) if getattr(model_type, name)
is self)` with `model_type` bound to the details dictionary: no
attribute of a `dict` is the descriptor, so the scan raises
`StopIteration`.  (Were a name found, the closure would return a
`Comparison` object — not a `str` — which `'\n  AND '.join` would then
reject with a `TypeError`; that branch is unreachable.) -/
def propComparison (_p : BaseProp) (_value : PyVal)
    (_details : String → ModelDetails) (_variable : String) :
    Except PyErr String := do
  let _name ← attrScan detailsDictDir
  throw PyErr.typeError

/-- The type of a condition as `Query.where` consumes it, per the
annotation `Comparison = Callable[[ModelDetails, BaseProp], str]` of
`query.py`: a function from the details registry and the current
variable to the rendered condition text (possibly raising). -/
def Comp : Type :=
  (String → ModelDetails) → String → Except PyErr String

/-! ## The matching chain and its rendering (`query.py`) -/

/-- `query.Direction`. -/
inductive Direction where
  | NONE
  | BACK
  | FRONT
  deriving DecidableEq, Repr

/-- `query.MatchingChain`: the per-chain state (`details` and `defined`
are owned by the `Query` and passed to the rendering explicitly). -/
structure MatchingChain where
  elements : List String
  directions : List Direction
  paths : List String
  conditions : List String

/-- The empty chain created by `MatchingChain.__init__`. -/
def MatchingChain.empty : MatchingChain :=
  { elements := [], directions := [], paths := [], conditions := [] }

/-- `'\nWHERE ' + '\n  AND '.join(self.conditions)` appended when the
condition list is non-empty. -/
def whereSuffix (conditions : List String) : String :=
  if conditions.isEmpty then ""
  else "\nWHERE " ++ String.intercalate "\n  AND " conditions

/-- The start/end-node rendering of one hop in `MatchingChain.__str__`:
a variable already in `defined` is rendered bare, otherwise it is
rendered as `var:Label...` and its details-variable is added to
`defined`. -/
def nodeStep (details : String → ModelDetails) (defined : Finset String)
    (v : String) : String × Finset String :=
  if v ∈ defined then (v, defined)
  else ((details v).get_var_and_labels, insert (details v).var defined)

/-- `conn[0] or ''` / `conn[1] or ''`: a missing bound — and also the
falsy bound `0` — renders as the empty string. -/
def boundStr : Option Int → String
  | none => ""
  | some n => if n = 0 then "" else toString n

/-- Python `str.strip()`: remove leading and trailing whitespace. -/
def pyStrip (s : String) : String :=
  String.mk
    (((s.data.dropWhile Char.isWhitespace).reverse.dropWhile
      Char.isWhitespace).reverse)

/-- The edge rendering of one hop in `MatchingChain.__str__`: the pair
(text inside the brackets, supplemental `WITH` text).  A hop without a
`conn` renders the edge as `var:Label...`; a hop with a `conn` renders a
`*`-quantifier and binds `relationships(path)` to the edge variable in a
supplemental `WITH` line. -/
def edgeRender (ed : ModelDetails) (path : String) : String × String :=
  match ed.conn with
  | none => (ed.get_var_and_labels, "")
  | some (lo, hi) =>
    let length := if lo = none ∧ hi = none then "*"
      else "*" ++ boundStr lo ++ ".." ++ boundStr hi
    let label := String.intercalate ":" ("" :: ed.get_labels)
    (pyStrip (label ++ " " ++ length),
      "\nWITH *, relationships(" ++ path ++ ") as " ++ ed.var)

/-- The loop `for i in range(len(self.paths))` of
`MatchingChain.__str__`, as a recursion that consumes two elements per
hop (iteration `i` reads `elements[i*2]`, `elements[i*2+1]`,
`elements[i*2+2]`, `directions[i]` and `paths[i]`; the end node of one
hop is the start node of the next).  Exhausting `elements` or
`directions` while paths remain is the `IndexError` the Python indexing
would raise. -/
def hopsLoop (details : String → ModelDetails) :
    List String → List Direction → List String → Finset String →
    List String → Except PyErr (List String × Finset String)
  | _, _, [], defined, acc => .ok (acc, defined)
  | n0 :: e0 :: n1 :: rest, d :: dirs, p :: ps, defined, acc =>
    let s1 := nodeStep details defined n0
    let s2 := nodeStep details s1.2 n1
    let defined2 := insert (details e0).var s2.2
    let er := edgeRender (details e0) p
    let line := "MATCH " ++ p ++ " = (" ++ s1.1 ++ ")" ++
      (if d = Direction.BACK then "<" else "") ++ "-[" ++ er.1 ++ "]-" ++
      (if d = Direction.FRONT then ">" else "") ++ "(" ++ s2.1 ++ ")" ++
      er.2
    hopsLoop details (n1 :: rest) dirs ps defined2 (acc ++ [line])
  | _, _, _ :: _, _, _ => .error .indexError

/-- `MatchingChain.__str__`: a one-element chain renders a single plain
node pattern (and adds its variable to `defined`); any other chain
renders one `MATCH path = ...` statement per hop.  Both cases append the
`WHERE` block when conditions are present. -/
def MatchingChain.str (details : String → ModelDetails)
    (defined : Finset String) (c : MatchingChain) :
    Except PyErr (String × Finset String) :=
  match c.elements with
  | [element] =>
    .ok ("MATCH (" ++ (details element).get_var_and_labels ++ ")" ++
      whereSuffix c.conditions, insert element defined)
  | _ =>
    match hopsLoop details c.elements c.directions c.paths defined [] with
    | .error e => .error e
    | .ok r =>
      .ok (String.intercalate "\n" r.1 ++ whereSuffix c.conditions, r.2)

/-- `map(str, self.chains)` with the shared `defined` set threaded from
chain to chain. -/
def renderChains (details : String → ModelDetails) (defined : Finset String) :
    List MatchingChain → Except PyErr (List String × Finset String)
  | [] => .ok ([], defined)
  | c :: cs =>
    match c.str details defined with
    | .error e => .error e
    | .ok r =>
      match renderChains details r.2 cs with
      | .error e => .error e
      | .ok r' => .ok (r.1 :: r'.1, r'.2)

/-! ## The query builder (`query.py`, class `Query`) -/

/-- `query.Query`: the consumed-prefix length of the two generators, the
chain list, the details registry (embedded as its lookup function), the
`output` list, and the `defined` set. -/
structure Query where
  varCounter : Nat
  pathCounter : Nat
  chains : List MatchingChain
  details : String → ModelDetails
  output : List String
  defined : Finset String

/-- `Query.__init__`. -/
def Query.init : Query :=
  { varCounter := 0
    pathCounter := 0
    chains := []
    details := fun v => { var := v, type := nodeBase }
    output := []
    defined := ∅ }

/-- `MatchingChain.add_condition`:
`self.conditions.append(comparison(self.details, self.elements[-1]))`
(`self.elements[-1]` on an empty list is an `IndexError`). -/
def MatchingChain.add_condition (c : MatchingChain)
    (details : String → ModelDetails) (comparison : Comp) :
    Except PyErr MatchingChain := do
  let lastEl ← match c.elements.getLast? with
    | none => throw PyErr.indexError
    | some e => pure e
  let s ← comparison details lastEl
  pure { c with conditions := c.conditions ++ [s] }

/-- `MatchingChain._add_instance_filter`: reads
`model.type.Meta.primary_key` (when it is `None`, the following
`getattr(model.type, None)` raises `TypeError`), fetches the descriptor
(`AttributeError` when the type does not declare it) and the instance
value, and adds the condition `prop == value` — a
`props.BaseProp.__eq__` closure, whose application by `add_condition`
raises `StopIteration` (see `propComparison`). -/
def MatchingChain.add_instance_filter (c : MatchingChain)
    (details : String → ModelDetails) (model : ModelDetails)
    (m : ModelInstance) : Except PyErr MatchingChain := do
  let propName ← match model.type.primary_key with
    | none => throw PyErr.typeError
    | some s => pure s
  let prop ← match model.type.props.lookup propName with
    | none => throw (PyErr.attributeError propName)
    | some p => pure p
  let value := (m.attrs.lookup propName).getD PyVal.pyNone
  c.add_condition details (propComparison prop value)

/-- `MatchingChain.add_node`: append the variable (and the direction if
given), then add the instance filter when the registered details carry
an instance. -/
def MatchingChain.add_node (c : MatchingChain)
    (details : String → ModelDetails) (var : String)
    (direction : Option Direction) : Except PyErr MatchingChain := do
  let c := { c with
    elements := c.elements ++ [var]
    directions := c.directions ++ direction.toList }
  let model := details var
  match model.inst with
  | some m => c.add_instance_filter details model m
  | none => pure c

/-- `MatchingChain.add_edge`: append the variable and the path name,
then add the instance filter when the registered details carry an
instance. -/
def MatchingChain.add_edge (c : MatchingChain)
    (details : String → ModelDetails) (var : String) (path : String) :
    Except PyErr MatchingChain := do
  let c := { c with
    elements := c.elements ++ [var]
    paths := c.paths ++ [path] }
  let model := details var
  match model.inst with
  | some m => c.add_instance_filter details model m
  | none => pure c

/-- `Query._add_details`: generate a variable when none was supplied
(`var = var or next(self.var_generator)`), build the `ModelDetails`
(which may raise `TypeError`) and register it under the variable.
(When the construction raises, the Python object keeps its advanced
generator; the embedding discards the state of a failing call, which no
claim observes.) -/
def Query._add_details (q : Query) (identifier : Identifier)
    (var : Option String) (conn : Option (Option Int × Option Int)) :
    Except PyErr (String × Query) := do
  let (v, q) := match var with
    | some v => (v, q)
    | none => (varAt q.varCounter, { q with varCounter := q.varCounter + 1 })
  let d ← ModelDetails.init identifier v conn
  pure (v, { q with details := fun x => if x = v then d else q.details x })

/-- `Query.match`: `identifier or Node` (a falsy identifier becomes the
wildcard), register the variable, append it to `output`, start a new
`MatchingChain` holding the new node. -/
def Query.match_ (q : Query) (identifier : Option Identifier)
    (var : Option String) : Except PyErr Query := do
  let ident := pyOrType identifier nodeBase
  let (v, q) ← q._add_details ident var none
  let q := { q with output := q.output ++ [v] }
  let chain ← MatchingChain.empty.add_node q.details v none
  pure { q with chains := q.chains ++ [chain] }

/-- `Query.connected_through`: `identifier or Edge`, register the
variable, append it to `output`, and add the edge (with the next path
name) to the last chain — `self.chains[-1]` raises `IndexError` when no
chain exists. -/
def Query.connected_through (q : Query) (identifier : Option Identifier)
    (var : Option String) (conn : Option (Option Int × Option Int)) :
    Except PyErr Query := do
  let ident := pyOrType identifier edgeBase
  let (v, q) ← q._add_details ident var conn
  let q := { q with output := q.output ++ [v] }
  let chain ← match q.chains.getLast? with
    | none => throw PyErr.indexError
    | some c => pure c
  let p := pathAt q.pathCounter
  let q := { q with pathCounter := q.pathCounter + 1 }
  let chain ← chain.add_edge q.details v p
  pure { q with chains := q.chains.dropLast ++ [chain] }

/-- `Query._by_to_with`: shared logic of `with_` / `by` / `to`. -/
def Query._by_to_with (q : Query) (direction : Direction)
    (identifier : Option Identifier) (var : Option String) :
    Except PyErr Query := do
  let ident := pyOrType identifier nodeBase
  let (v, q) ← q._add_details ident var none
  let q := { q with output := q.output ++ [v] }
  let chain ← match q.chains.getLast? with
    | none => throw PyErr.indexError
    | some c => pure c
  let chain ← chain.add_node q.details v (some direction)
  pure { q with chains := q.chains.dropLast ++ [chain] }

/-- `Query.with_`. -/
def Query.with_ (q : Query) (identifier : Option Identifier)
    (var : Option String) : Except PyErr Query :=
  q._by_to_with Direction.NONE identifier var

/-- `Query.by` (named `by_` here: `by` is a Lean keyword). -/
def Query.by_ (q : Query) (identifier : Option Identifier)
    (var : Option String) : Except PyErr Query :=
  q._by_to_with Direction.BACK identifier var

/-- `Query.to`. -/
def Query.to (q : Query) (identifier : Option Identifier)
    (var : Option String) : Except PyErr Query :=
  q._by_to_with Direction.FRONT identifier var

/-- `Query.where`: add each condition to the last chain. -/
def Query.where (q : Query) (comparisons : List Comp) :
    Except PyErr Query := do
  let chain ← match q.chains.getLast? with
    | none => throw PyErr.indexError
    | some c => pure c
  let chain ← comparisons.foldlM
    (fun c comparison => c.add_condition q.details comparison) chain
  pure { q with chains := q.chains.dropLast ++ [chain] }

/-- `OrderedDict.fromkeys(self.output).keys()`: the keys deduplicated,
keeping the first occurrence of each, in insertion order. -/
def pyDedupAux (seen : List String) : List String → List String
  | [] => []
  | x :: xs =>
    if x ∈ seen then pyDedupAux seen xs
    else x :: pyDedupAux (x :: seen) xs

/-- First-occurrence deduplication, the semantics of
`OrderedDict.fromkeys(...).keys()`. -/
def pyDedupKeys (l : List String) : List String :=
  pyDedupAux [] l

/-- `Query.result`: `output or OrderedDict.fromkeys(self.output).keys()`
joined into a `RETURN` clause, the chains rendered in order, everything
joined by newlines; without `no_exec` the method raises
`NotImplementedError`. -/
def Query.result (q : Query) (output : List String) (no_exec : Bool) :
    Except PyErr String := do
  let outs := if output.isEmpty then pyDedupKeys q.output else output
  let ret := "RETURN " ++ String.intercalate ", " outs
  let (chainStrs, _) ← renderChains q.details q.defined q.chains
  let queryText := String.intercalate "\n" (chainStrs ++ [ret])
  if no_exec then pure queryText else throw PyErr.notImplementedError

/-! ## Concrete model types used by the claims -/

/-- `class Human(Node): age = Props.Integer()`. -/
def HumanT : ModelType :=
  { name := "Human", props := [("age", integerProp)] }

/-- `class Knows(Edge)`. -/
def KnowsT : ModelType :=
  { name := "Knows" }

/-- `class User(Node)`. -/
def UserT : ModelType :=
  { name := "User" }

/-! ## Claim C3 -/

/-- C3: `Query().match(None).connected_through(Knows, conn=(1,3))
.with_(User)` rendered with `no_exec` yields a single path-assignment
`MATCH` statement whose edge hop carries a `*1..3` quantifier and binds
no plain edge variable inside the brackets, immediately followed by the
supplemental line `WITH *, relationships(_p1) as _b`.  (Proved as the
exact rendered text.) -/
theorem claim_C3_variable_length_hop :
    (Query.init.match_ none none >>= fun q =>
      q.connected_through (some (.modelType KnowsT)) none
        (some (some 1, some 3)) >>= fun q =>
      q.with_ (some (.modelType UserT)) none >>= fun q =>
      q.result [] true) =
    .ok ("MATCH _p1 = (_a)-[:Knows *1..3]-(_c:User)\n" ++
      "WITH *, relationships(_p1) as _b\n" ++
      "RETURN _a, _b, _c") := rfl

/-! ## Claim C6 -/

/-- C6 counterexample: the claim says every identifier that is neither
a model instance, a model type, nor the wildcard marker `None` raises a
`TypeError` at `match`-call time.  But `identifier or Node`
(query.py, line 237) replaces *every falsy* identifier — `0`, the empty
string, `False`, `[]`, `{}` — by the wildcard `Node`: `Query().match(0)` raises
nothing and renders the unconstrained `MATCH (_a)\nRETURN _a`. -/
theorem claim_C6_counterexample :
    (Query.init.match_ (some (.nonClass false)) none >>= fun q =>
      q.result [] true) = .ok "MATCH (_a)\nRETURN _a" := rfl

/-- C6 amended: a *truthy* identifier that is neither a model instance
nor a model type raises `TypeError` synchronously at `match`-call time,
returning no mutated query; a falsy identifier is silently treated as
the wildcard (the call behaves exactly like `match(None)`); and
`connected_through`, `to`, `by` and `with_` on a query whose chain list
is empty fail fast with an error (`IndexError` from `self.chains[-1]`)
instead of creating an implicit chain. -/
theorem claim_C6_amended_failure_semantics :
    (∀ (q : Query) (ident : Identifier) (var : Option String),
      ident.isModelKind = false → ident.truthy = true →
      q.match_ (some ident) var = .error .typeError) ∧
    (∀ (q : Query) (ident : Identifier) (var : Option String),
      ident.truthy = false →
      q.match_ (some ident) var = q.match_ none var) ∧
    (∀ q : Query, q.chains = [] →
      q.connected_through none none none = .error .indexError ∧
      q.to none none = .error .indexError ∧
      q.by_ none none = .error .indexError ∧
      q.with_ none none = .error .indexError) := by
  refine ⟨?_, ?_, ?_⟩
  · intro q ident var hbad htruthy
    cases ident with
    | inst m => simp [Identifier.isModelKind] at hbad
    | modelType t => simp [Identifier.isModelKind] at hbad
    | otherClass n =>
      cases var <;>
        simp [Query.match_, Query._add_details, ModelDetails.init,
          pyOrType, Identifier.truthy, bind, Except.bind]
    | nonClass t =>
      subst htruthy
      cases var <;>
        simp [Query.match_, Query._add_details, ModelDetails.init,
          pyOrType, Identifier.truthy, bind, Except.bind]
  · intro q ident var hfalsy
    cases ident with
    | inst m => simp [Identifier.truthy] at hfalsy
    | modelType t => simp [Identifier.truthy] at hfalsy
    | otherClass n => simp [Identifier.truthy] at hfalsy
    | nonClass t =>
      subst hfalsy
      rfl
  · intro q hchains
    refine ⟨?_, ?_, ?_, ?_⟩ <;>
      simp [Query.connected_through, Query.to, Query.by_, Query.with_,
        Query._by_to_with, Query._add_details, ModelDetails.init,
        pyOrType, bind, Except.bind, pure, Except.pure, hchains,
        List.getLast?, throw, throwThe, MonadExceptOf.throw]

/-- Witness for the amended C6 at concrete inputs: matching a truthy
non-class object (such as `42`) on a fresh query raises `TypeError`; a
falsy non-class object (such as `0`) behaves exactly like
`match(None)`; and each chain-continuing method on a fresh (chainless)
query raises `IndexError`. -/
theorem claim_C6_amended_failure_semantics_witness :
    Query.init.match_ (some (.nonClass true)) none = .error .typeError ∧
    Query.init.match_ (some (.nonClass false)) none =
      Query.init.match_ none none ∧
    Query.init.connected_through none none none = .error .indexError ∧
    Query.init.to none none = .error .indexError ∧
    Query.init.by_ none none = .error .indexError ∧
    Query.init.with_ none none = .error .indexError := by
  refine ⟨claim_C6_amended_failure_semantics.1 Query.init
      (.nonClass true) none rfl rfl,
    claim_C6_amended_failure_semantics.2.1 Query.init
      (.nonClass false) none rfl, ?_⟩
  have h := claim_C6_amended_failure_semantics.2.2 Query.init rfl
  exact ⟨h.1, h.2.1, h.2.2.1, h.2.2.2⟩

/-! ## Claim C5 -/

/-- C5 counterexample: the claim says every rendered label is
backtick-delimited (with embedded backticks doubled).  The rendered
query for `Query().match(Human).result(no_exec=True)` is exactly
`MATCH (_a:Human)\nRETURN _a`, which contains no backtick (code point
96) at all — the label `Human` is not backtick-delimited. -/
theorem claim_C5_counterexample :
    (Query.init.match_ (some (.modelType HumanT)) none >>= fun q =>
      q.result [] true) = .ok "MATCH (_a:Human)\nRETURN _a" ∧
    ("MATCH (_a:Human)\nRETURN _a").data.all
      (fun c => decide (c.toNat ≠ 96)) = true :=
  ⟨rfl, rfl⟩

/-- C5 amended: in every rendered pattern, labels are emitted verbatim
after the variable, joined by `:`, with no backtick delimiters and no
escaping (a backtick embedded in a label is emitted once, not doubled);
property keys in rendered conditions are likewise emitted verbatim and
unquoted (`var.prop op value`). -/
theorem claim_C5_amended_verbatim_labels :
    (∀ var name : String,
      ModelDetails.get_var_and_labels
        { var := var, type := { name := name } } = var ++ ":" ++ name ∧
      (ModelDetails.get_var_and_labels
        { var := var, type := { name := name } }).data =
          var.data ++ ':' :: name.data) ∧
    ModelDetails.get_var_and_labels
      { var := "_a", type := { name := "Hu`man" } } = "_a:Hu`man" ∧
    (∀ var prop operator value : String,
      comparisonStringify var prop operator value =
        var ++ "." ++ prop ++ " " ++ operator ++ " " ++ value) := by
  refine ⟨fun var name => ⟨rfl, ?_⟩, rfl, fun _ _ _ _ => rfl⟩
  show ((var ++ ":" ++ name)).data = var.data ++ ':' :: name.data
  simp

/-! ## Claim C2 -/

/-- C2 (code-bug evidence): `Model.__init__` crashes on every present
property value.  For `class SomeModel(Model): string = Props.String()`
(the model of `test_models.py::test_init`):
`SomeModel(string='string')` raises `AttributeError('value_type')` —
models.py line 50 reads `prop.value_type`, an attribute no `BaseProp`
defines — instead of normalizing, validating and storing the value;
`SomeModel()` (required property, no value, no default) correctly
raises the construction `ValueError` naming the class and the property;
a non-required absent property is stored as `None`. -/
theorem claim_C2_model_init :
    modelInit { name := "SomeModel", props := [("string", stringProp)] }
        [("string", .pyStr "string")] =
      .error (.attributeError "value_type") ∧
    modelInit { name := "SomeModel", props := [("string", stringProp)] }
        [] =
      .error (.valueError
        "Cannot initialize a `SomeModel` without `string`") ∧
    modelInit { name := "SomeModel", props := [("boolean", stringProp false none)] }
        [] =
      .ok [("boolean", none)] :=
  ⟨rfl, rfl, rfl⟩

/-! ## Claim C1 -/

/-- The second positional argument of the active `Query.match` is `var`,
not a condition; passing `Human.age > 21` there stores the comparison
closure as the variable.  `VarArg` is the dynamic type of that slot. -/
inductive VarArg where
  | str (s : String)
  | compClosure
  deriving DecidableEq, Repr

/-- `', '.join(items)`: Python's `str.join` raises `TypeError` when an
item is not a `str`. -/
def pyJoin (sep : String) (items : List VarArg) : Except PyErr String := do
  let strs ← items.mapM (fun it => match it with
    | .str s => pure s
    | .compClosure => throw PyErr.typeError)
  pure (String.intercalate sep strs)

/-- First-occurrence deduplication over dynamic values
(`OrderedDict.fromkeys` accepts any hashable key, closures included). -/
def pyDedupArgsAux (seen : List VarArg) : List VarArg → List VarArg
  | [] => []
  | x :: xs =>
    if x ∈ seen then pyDedupArgsAux seen xs
    else x :: pyDedupArgsAux (x :: seen) xs

/-- The `output` bookkeeping of `Query().match(Human, Human.age > 21)`:
`match` runs without raising — the closure is truthy, so
`var = var or next(...)` binds the closure, `ModelDetails` stores it,
`add_node` appends it (the class identifier carries no instance, so no
filter is added) and it is appended to `self.output`.  Only the
`output` list matters for the subsequent failure, which happens in
`result` before any chain is stringified. -/
def dynMatchOutput (output : List VarArg) (var : VarArg) : List VarArg :=
  output ++ [var]

/-- `Query.result` on a dynamic `output` list, up to the point it
evaluates `'RETURN %s' % ', '.join(output)` (query.py line 369, executed
before the chains are stringified on line 370). -/
def dynResultReturn (output : List VarArg) : Except PyErr String := do
  let outs := pyDedupArgsAux [] output
  let joined ← pyJoin ", " outs
  pure ("RETURN " ++ joined)

/-- C1 (code-bug evidence): the call sequence of the claim does not
render `MATCH (_a:Human)\nWHERE _a.age > 21\nRETURN _a`.
(1) `Query().match(Human, Human.age > 21).result(no_exec=True)` stores
the comparison closure as the variable and `result` raises `TypeError`
when `', '.join(output)` meets the closure.
(2) The form the active test-suite uses,
`Query().match(Human).where(Human.age > 21).result(no_exec=True)`,
raises `StopIteration` inside the `props.BaseProp._comparison_creator`
closure: `add_condition` passes the details dictionary where the closure
expects a model type, and the `next(...)` attribute scan over `dir` of a
`dict` finds no descriptor. -/
theorem claim_C1_scenario_raises :
    dynResultReturn (dynMatchOutput [] .compClosure) =
      .error .typeError ∧
    (Query.init.match_ (some (.modelType HumanT)) none >>= fun q =>
      q.where [propComparison integerProp (.pyInt 21)] >>= fun q =>
      q.result [] true) = .error .stopIteration :=
  ⟨rfl, rfl⟩

/-! ## Claim C8 -/

/-- C8: assigning labels from an iterable raises `TypeError` on any
non-string entry; otherwise the resulting label set contains the runtime
type's own name even when omitted by the caller, duplicates collapse
(the result is a set), and the rendered label clause
(`ModelDetails.get_labels` on an instance) lists each distinct label of
the set exactly once, in sorted order. -/
theorem claim_C8_label_set :
    ∀ (typeName : String) (value : List LabelEntry),
      ((∃ e ∈ value, e.isStr = false) →
        setLabels typeName value = .error .typeError) ∧
      ((∀ e ∈ value, e.isStr = true) →
        ∃ S, setLabels typeName value = .ok S ∧
          typeName ∈ S ∧
          (∀ s, s ∈ S ↔ s = typeName ∨ LabelEntry.str s ∈ value) ∧
          ∀ (d : ModelDetails) (m : ModelInstance),
            d.inst = some m → m.labels = S →
            d.get_labels.Nodup ∧ d.get_labels.Sorted (· ≤ ·) ∧
            ∀ s, s ∈ d.get_labels ↔ s ∈ S) := by
  intro typeName value
  constructor
  · intro ⟨e, hmem, hbad⟩
    have hall : value.all (fun x => x.isStr) = false := by
      rw [List.all_eq_false]
      exact ⟨e, hmem, by simp [hbad]⟩
    simp [setLabels, hall]
  · intro hgood
    have hall : value.all (fun x => x.isStr) = true :=
      List.all_eq_true.mpr (fun e he => hgood e he)
    refine ⟨insert typeName (labelStrings value), by simp [setLabels, hall],
      Finset.mem_insert_self _ _, ?_, ?_⟩
    · intro s
      simp only [Finset.mem_insert, labelStrings, List.mem_toFinset,
        List.mem_filterMap]
      constructor
      · rintro (rfl | ⟨e, he, hsome⟩)
        · exact Or.inl rfl
        · cases e with
          | str t =>
            simp only [Option.some.injEq] at hsome
            exact Or.inr (hsome ▸ he)
          | nonStr => simp at hsome
      · rintro (rfl | hes)
        · exact Or.inl rfl
        · exact Or.inr ⟨LabelEntry.str s, hes, rfl⟩
    · intro d m hinst hlabels
      have hgl : d.get_labels = m.labels.sort (· ≤ ·) := by
        simp [ModelDetails.get_labels, hinst]
      refine ⟨?_, ?_, ?_⟩
      · rw [hgl]; exact (m.labels).sort_nodup (· ≤ ·)
      · rw [hgl]; exact (m.labels).sort_sorted (· ≤ ·)
      · intro s
        rw [hgl, hlabels]
        exact Finset.mem_sort (· ≤ ·)

/-- Witness for C8: a non-string entry raises; with entries
`['Label', 'SomeModel', 'Label']` on a type named `SomeModel`, the set
contains `SomeModel`, and the membership characterization holds. -/
theorem claim_C8_label_set_witness :
    setLabels "SomeModel" [.str "Label", .nonStr] = .error .typeError ∧
    ∃ S, setLabels "SomeModel"
        [.str "Label", .str "SomeModel", .str "Label"] = .ok S ∧
      "SomeModel" ∈ S ∧
      ("Label" ∈ S ∧ "Other" ∉ S) := by
  constructor
  · exact (claim_C8_label_set "SomeModel" [.str "Label", .nonStr]).1
      ⟨.nonStr, by simp, rfl⟩
  · obtain ⟨S, hok, hself, hmem, _⟩ :=
      (claim_C8_label_set "SomeModel"
        [.str "Label", .str "SomeModel", .str "Label"]).2
        (by intro e he; fin_cases he <;> rfl)
    refine ⟨S, hok, hself, (hmem "Label").mpr (Or.inr (by simp)), ?_⟩
    intro hother
    rcases (hmem "Other").mp hother with h | h
    · simp at h
    · simp at h

/-! ## Claim C10 -/

theorem mem_pyDedupAux (seen : List String) (l : List String) (a : String) :
    a ∈ pyDedupAux seen l ↔ a ∈ l ∧ a ∉ seen := by
  induction l generalizing seen with
  | nil => simp [pyDedupAux]
  | cons x xs ih =>
    simp only [pyDedupAux]
    by_cases hx : x ∈ seen
    · rw [if_pos hx, ih]
      constructor
      · rintro ⟨ha, hns⟩
        exact ⟨List.mem_cons_of_mem _ ha, hns⟩
      · rintro ⟨ha, hns⟩
        rcases List.mem_cons.mp ha with rfl | ha
        · exact absurd hx hns
        · exact ⟨ha, hns⟩
    · rw [if_neg hx]
      constructor
      · intro h
        rcases List.mem_cons.mp h with rfl | h
        · exact ⟨List.mem_cons_self _ _, hx⟩
        · rw [ih] at h
          obtain ⟨ha, hns⟩ := h
          exact ⟨List.mem_cons_of_mem _ ha,
            fun hs => hns (List.mem_cons_of_mem _ hs)⟩
      · rintro ⟨ha, hns⟩
        by_cases hax : a = x
        · subst hax
          exact List.mem_cons_self _ _
        · rcases List.mem_cons.mp ha with rfl | ha
          · exact absurd rfl hax
          · refine List.mem_cons_of_mem _ ?_
            rw [ih]
            refine ⟨ha, fun hs => ?_⟩
            rcases List.mem_cons.mp hs with h | h
            · exact hax h
            · exact hns h

theorem pyDedupAux_nodup (seen : List String) (l : List String) :
    (pyDedupAux seen l).Nodup := by
  induction l generalizing seen with
  | nil => simp [pyDedupAux]
  | cons x xs ih =>
    simp only [pyDedupAux]
    by_cases hx : x ∈ seen
    · rw [if_pos hx]; exact ih seen
    · rw [if_neg hx]
      refine List.nodup_cons.mpr ⟨?_, ih (x :: seen)⟩
      intro hmem
      rw [mem_pyDedupAux] at hmem
      exact hmem.2 (List.mem_cons_self x seen)

theorem pyDedupAux_sublist (seen : List String) (l : List String) :
    (pyDedupAux seen l).Sublist l := by
  induction l generalizing seen with
  | nil => simp [pyDedupAux]
  | cons x xs ih =>
    simp only [pyDedupAux]
    by_cases hx : x ∈ seen
    · rw [if_pos hx]; exact (ih seen).cons x
    · rw [if_neg hx]; exact (ih (x :: seen)).cons₂ x

theorem pyDedupAux_eq_filter (seen : List String) (l : List String) :
    pyDedupAux seen l =
      (pyDedupKeys l).filter (fun a => decide (a ∉ seen)) := by
  induction l generalizing seen with
  | nil => simp [pyDedupAux, pyDedupKeys]
  | cons x xs ih =>
    have hkeys : pyDedupKeys (x :: xs) = x :: pyDedupAux [x] xs := by
      simp [pyDedupKeys, pyDedupAux]
    rw [hkeys]
    simp only [pyDedupAux]
    by_cases hx : x ∈ seen
    · rw [if_pos hx, ih seen]
      rw [List.filter_cons]
      have hxf : (decide (x ∉ seen)) = false := by simp [hx]
      rw [hxf]
      simp only [Bool.false_eq_true, if_false]
      rw [ih [x], List.filter_filter]
      refine (List.filter_congr ?_).symm
      intro a _
      by_cases hax : a = x
      · subst hax
        simp [hx]
      · simp [hax]
    · rw [if_neg hx, ih (x :: seen)]
      rw [List.filter_cons]
      have hxf : (decide (x ∉ seen)) = true := by simp [hx]
      rw [hxf]
      simp only [if_true]
      congr 1
      rw [ih [x], List.filter_filter]
      refine List.filter_congr ?_
      intro a _
      by_cases hax : a = x
      · subst hax
        simp
      · simp [hax, List.mem_cons]

theorem pyDedupKeys_cons (x : String) (xs : List String) :
    pyDedupKeys (x :: xs) =
      x :: (pyDedupKeys xs).filter (fun a => decide (a ≠ x)) := by
  have h : pyDedupKeys (x :: xs) = x :: pyDedupAux [x] xs := by
    simp [pyDedupKeys, pyDedupAux]
  rw [h, pyDedupAux_eq_filter]
  congr 1
  refine List.filter_congr ?_
  intro a _
  simp

/-- C10: with no explicit output variables, the `RETURN` clause of
`result(no_exec=True)` lists `pyDedupKeys q.output` — each registered
variable at most once (`Nodup`), in registration order (`Sublist`),
keeping the first registration of each name and dropping later
duplicates (the `pyDedupKeys_cons` recurrence); explicitly passed output
variables are emitted verbatim, without deduplication. -/
theorem claim_C10_return_clause :
    (∀ q : Query, q.result [] true =
      (renderChains q.details q.defined q.chains).map (fun p =>
        String.intercalate "\n" (p.1 ++
          ["RETURN " ++ String.intercalate ", " (pyDedupKeys q.output)]))) ∧
    (∀ (q : Query) (outs : List String), outs ≠ [] →
      q.result outs true =
      (renderChains q.details q.defined q.chains).map (fun p =>
        String.intercalate "\n" (p.1 ++
          ["RETURN " ++ String.intercalate ", " outs]))) ∧
    (∀ l : List String, (pyDedupKeys l).Nodup ∧
      (pyDedupKeys l).Sublist l ∧ (∀ a, a ∈ pyDedupKeys l ↔ a ∈ l)) ∧
    (∀ (x : String) (xs : List String),
      pyDedupKeys (x :: xs) =
        x :: (pyDedupKeys xs).filter (fun a => decide (a ≠ x))) := by
  refine ⟨?_, ?_, ?_, pyDedupKeys_cons⟩
  · intro q
    unfold Query.result
    cases h : renderChains q.details q.defined q.chains with
    | error e => simp [h, bind, Except.bind, Except.map]
    | ok p => simp [h, bind, Except.bind, Except.map, pure, Except.pure]
  · intro q outs houts
    unfold Query.result
    have hne : outs.isEmpty = false := by
      cases outs with
      | nil => exact absurd rfl houts
      | cons a as => rfl
    cases h : renderChains q.details q.defined q.chains with
    | error e => simp [h, hne, bind, Except.bind, Except.map]
    | ok p => simp [h, hne, bind, Except.bind, Except.map, pure, Except.pure]
  · intro l
    exact ⟨pyDedupAux_nodup [] l, pyDedupAux_sublist [] l,
      fun a => by rw [pyDedupKeys, mem_pyDedupAux]; simp⟩

/-- Witness for C10 on a concrete query whose `output` is
`["a", "b", "a"]` and which has no chains: the implicit `RETURN` clause
deduplicates to `RETURN a, b`, while the explicit duplicate output
`["a", "a"]` is emitted verbatim as `RETURN a, a`. -/
theorem claim_C10_return_clause_witness :
    ({ varCounter := 0, pathCounter := 0, chains := [],
       details := fun v => { var := v, type := nodeBase },
       output := ["a", "b", "a"], defined := ∅ } : Query).result [] true =
      .ok "RETURN a, b" ∧
    ({ varCounter := 0, pathCounter := 0, chains := [],
       details := fun v => { var := v, type := nodeBase },
       output := ["a", "b", "a"], defined := ∅ } : Query).result
        ["a", "a"] true = .ok "RETURN a, a" := by
  constructor
  · exact (claim_C10_return_clause.1 _).trans rfl
  · exact (claim_C10_return_clause.2.1 _ ["a", "a"] (by decide)).trans rfl

/-! ## Claim C9 -/

/-- One fluent builder call. -/
inductive Call where
  | matchCall (identifier : Option Identifier) (var : Option String)
  | connectedThroughCall (identifier : Option Identifier)
      (var : Option String) (conn : Option (Option Int × Option Int))
  | withCall (identifier : Option Identifier) (var : Option String)
  | byCall (identifier : Option Identifier) (var : Option String)
  | toCall (identifier : Option Identifier) (var : Option String)

/-- Dispatch one builder call. -/
def applyCall (q : Query) : Call → Except PyErr Query
  | .matchCall i v => q.match_ i v
  | .connectedThroughCall i v c => q.connected_through i v c
  | .withCall i v => q.with_ i v
  | .byCall i v => q.by_ i v
  | .toCall i v => q.to i v

/-- Run a sequence of builder calls on a fresh `Query` and render with
`no_exec`. -/
def runCalls (calls : List Call) (outs : List String) :
    Except PyErr String := do
  let q ← calls.foldlM applyCall Query.init
  q.result outs true

theorem mem_varBlock_shape {k : Nat} {s : String}
    (h : s ∈ varBlock (k + 1)) :
    ∃ c cs, s.data = '_' :: c :: cs ∧ c ≠ 'p' := by
  simp only [varBlock, List.mem_map, List.mem_filter] at h
  obtain ⟨w, ⟨hw, hhead⟩, rfl⟩ := h
  have hlen := (mem_lettersOfLen hw).1
  cases w with
  | nil => simp at hlen
  | cons c rest =>
    refine ⟨c, rest, rfl, fun hc => ?_⟩
    subst hc
    simp at hhead

theorem varAt_shape (n : Nat) :
    ∃ c cs, (varAt n).data = '_' :: c :: cs ∧ c ≠ 'p' := by
  obtain ⟨k, _, hmem⟩ := varGo_mem_varBlock (n + 1) n 0 (by omega)
  exact mem_varBlock_shape hmem

theorem pathAt_data (n : Nat) :
    (pathAt n).data = '_' :: 'p' :: (Nat.repr (n + 1)).data := by
  show (("_p" ++ Nat.repr (n + 1)) : String).data = _
  rw [String.data_append]
  rfl

set_option maxRecDepth 100000 in
/-- C9: rendering is deterministic — two runs of the same builder-call
sequence on fresh `Query` objects give equal results; every
auto-generated variable name is an underscore followed by a letter that
is not `'p'` (names starting `"_p"` are skipped); path names are
`"_p1", "_p2", ...`; the variable sequence is disjoint from the
path-name sequence; and the first skipped name is visible concretely:
`"_o"` is followed by `"_q"`, and `"_z"` by `"_aa"`. -/
theorem claim_C9_determinism :
    (∀ (calls : List Call) (outs : List String)
        (r₁ r₂ : Except PyErr String),
      r₁ = runCalls calls outs → r₂ = runCalls calls outs → r₁ = r₂) ∧
    (∀ n, ∃ c cs, (varAt n).data = '_' :: c :: cs ∧ c ≠ 'p') ∧
    (∀ m n, varAt m ≠ pathAt n) ∧
    (varAt 0 = "_a" ∧ varAt 14 = "_o" ∧ varAt 15 = "_q" ∧
      varAt 24 = "_z" ∧ varAt 25 = "_aa" ∧
      pathAt 0 = "_p1" ∧ pathAt 1 = "_p2") := by
  refine ⟨?_, varAt_shape, ?_, by decide, by decide, by decide, by decide,
    by decide, rfl, rfl⟩
  · intro calls outs r₁ r₂ h₁ h₂
    rw [h₁, h₂]
  · intro m n heq
    obtain ⟨c, cs, hvar, hc⟩ := varAt_shape m
    have hdata : (varAt m).data = (pathAt n).data := congrArg String.data heq
    rw [hvar, pathAt_data] at hdata
    exact hc (by injection hdata with _ h; injection h)

/-- Witness for C9: the determinism statement applied to the concrete
call sequence `[match(None)]` (both hypotheses discharged by `rfl`), and
the disjointness applied at indices 3 and 7. -/
theorem claim_C9_determinism_witness :
    runCalls [Call.matchCall none none] [] =
      runCalls [Call.matchCall none none] [] ∧
    varAt 3 ≠ pathAt 7 :=
  ⟨claim_C9_determinism.1 [Call.matchCall none none] [] _ _ rfl rfl,
   claim_C9_determinism.2.2.1 3 7⟩

/-! ## Claim C4 -/

/-- The variables occurring in node position in a chain's element list
(the single element of a one-element chain; the even positions of a
path chain). -/
def nodeEls : List String → List String
  | [] => []
  | [n] => [n]
  | n :: _e :: rest => n :: nodeEls rest

/-- The variables occurring in edge position in a chain's element list
(the odd positions). -/
def edgeEls : List String → List String
  | [] => []
  | [_] => []
  | _n :: e :: rest => e :: edgeEls rest

/-- All node-position variables of a query's chains. -/
def queryNodeVars (cs : List MatchingChain) : Finset String :=
  (cs.flatMap (fun c => nodeEls c.elements)).toFinset

/-- The claim's declaration rule, as a renderer: a node variable is
rendered as `var:Label...` exactly at its first node occurrence (the
`seen` set holds the node variables already rendered) and as the bare
variable at every later occurrence. -/
def specNodeStep (details : String → ModelDetails) (seen : Finset String)
    (v : String) : String × Finset String :=
  if v ∈ seen then (v, seen)
  else ((details v).get_var_and_labels, insert v seen)

/-- The claim's hop renderer: identical to `hopsLoop` except that the
declaration decision is `specNodeStep` (first node occurrence) and edge
variables are never recorded as declared nodes. -/
def specHopsLoop (details : String → ModelDetails) :
    List String → List Direction → List String → Finset String →
    List String → Except PyErr (List String × Finset String)
  | _, _, [], seen, acc => .ok (acc, seen)
  | n0 :: e0 :: n1 :: rest, d :: dirs, p :: ps, seen, acc =>
    let s1 := specNodeStep details seen n0
    let s2 := specNodeStep details s1.2 n1
    let er := edgeRender (details e0) p
    let line := "MATCH " ++ p ++ " = (" ++ s1.1 ++ ")" ++
      (if d = Direction.BACK then "<" else "") ++ "-[" ++ er.1 ++ "]-" ++
      (if d = Direction.FRONT then ">" else "") ++ "(" ++ s2.1 ++ ")" ++
      er.2
    specHopsLoop details (n1 :: rest) dirs ps s2.2 (acc ++ [line])
  | _, _, _ :: _, _, _ => .error .indexError

/-- The claim's chain renderer: a one-element chain renders as a single
plain node pattern and declares its node; a longer chain renders its
hops by `specHopsLoop`. -/
def specChainStr (details : String → ModelDetails) (seen : Finset String)
    (c : MatchingChain) : Except PyErr (String × Finset String) :=
  match c.elements with
  | [element] =>
    .ok ("MATCH (" ++ (details element).get_var_and_labels ++ ")" ++
      whereSuffix c.conditions, insert element seen)
  | _ =>
    match specHopsLoop details c.elements c.directions c.paths seen [] with
    | .error e => .error e
    | .ok r =>
      .ok (String.intercalate "\n" r.1 ++ whereSuffix c.conditions, r.2)

/-- The claim's query renderer: chains in order, first-occurrence
declaration shared across chains. -/
def specRenderChains (details : String → ModelDetails)
    (seen : Finset String) :
    List MatchingChain → Except PyErr (List String × Finset String)
  | [] => .ok ([], seen)
  | c :: cs =>
    match specChainStr details seen c with
    | .error e => .error e
    | .ok r =>
      match specRenderChains details r.2 cs with
      | .error e => .error e
      | .ok r' => .ok (r.1 :: r'.1, r'.2)

/-- Agreement of the code renderer and the claim renderer: equal errors,
or equal rendered strings with the code's `defined` set exceeding the
claim's `seen` set only by variables outside `N` (the node variables). -/
def agreeUpTo {α : Type} (N : Finset String) :
    Except PyErr (α × Finset String) →
    Except PyErr (α × Finset String) → Prop
  | .error e₁, .error e₂ => e₁ = e₂
  | .ok (s₁, d₁), .ok (s₂, d₂) =>
    s₁ = s₂ ∧ ∃ E, d₁ = d₂ ∪ E ∧ ∀ v ∈ E, v ∉ N
  | _, _ => False

theorem nodeStep_agree (details : String → ModelDetails)
    (hvar : ∀ v, (details v).var = v) (N : Finset String)
    (seen E : Finset String) (hEN : ∀ v ∈ E, v ∉ N) (v : String)
    (hv : v ∈ N) :
    nodeStep details (seen ∪ E) v =
      ((specNodeStep details seen v).1,
        (specNodeStep details seen v).2 ∪ E) := by
  unfold nodeStep specNodeStep
  by_cases h : v ∈ seen
  · have hmem : v ∈ seen ∪ E := Finset.mem_union_left E h
    simp [h, hmem]
  · have hvE : v ∉ E := fun hE' => hEN v hE' hv
    have hmem : v ∉ seen ∪ E := by
      rw [Finset.mem_union]
      push_neg
      exact ⟨h, hvE⟩
    simp [h, hmem, hvar v, Finset.insert_union]

theorem head_mem_nodeEls (n : String) (l : List String) :
    n ∈ nodeEls (n :: l) := by
  rcases l with _ | ⟨e, rest⟩
  · simp [nodeEls]
  · rw [show nodeEls (n :: e :: rest) = n :: nodeEls rest from rfl]
    exact List.mem_cons_self _ _

theorem hops_agree (details : String → ModelDetails) (N : Finset String)
    (hvar : ∀ v, (details v).var = v) :
    ∀ (ps els : List String) (dirs : List Direction)
      (seen E : Finset String) (acc : List String),
      (∀ v ∈ E, v ∉ N) →
      (∀ v ∈ nodeEls els, v ∈ N) →
      (∀ v ∈ edgeEls els, v ∉ N) →
      agreeUpTo N (hopsLoop details els dirs ps (seen ∪ E) acc)
        (specHopsLoop details els dirs ps seen acc) := by
  intro ps
  induction ps with
  | nil =>
    intro els dirs seen E acc hEN _ _
    rcases els with _ | ⟨n0, _ | ⟨e0, _ | ⟨n1, rest⟩⟩⟩ <;>
      rcases dirs with _ | ⟨d, dirs⟩ <;>
      exact ⟨rfl, E, rfl, hEN⟩
  | cons p ps ih =>
    intro els dirs seen E acc hEN hnodes hedges
    rcases els with _ | ⟨n0, _ | ⟨e0, _ | ⟨n1, rest⟩⟩⟩ <;>
      rcases dirs with _ | ⟨d, dirs⟩
    case nil.nil => exact rfl
    case nil.cons => exact rfl
    case cons.nil.nil => exact rfl
    case cons.nil.cons => exact rfl
    case cons.cons.nil.nil => exact rfl
    case cons.cons.nil.cons => exact rfl
    case cons.cons.cons.nil => exact rfl
    case cons.cons.cons.cons =>
      have hnodesEq : nodeEls (n0 :: e0 :: n1 :: rest) =
          n0 :: nodeEls (n1 :: rest) := rfl
      have hedgesEq : edgeEls (n0 :: e0 :: n1 :: rest) =
          e0 :: edgeEls (n1 :: rest) := rfl
      have hn0 : n0 ∈ N := hnodes n0 (head_mem_nodeEls n0 (e0 :: n1 :: rest))
      have hn1 : n1 ∈ N := hnodes n1
        (hnodesEq ▸ List.mem_cons_of_mem _ (head_mem_nodeEls n1 rest))
      have he0 : e0 ∉ N := hedges e0
        (hedgesEq ▸ List.mem_cons_self _ _)
      have h0 := nodeStep_agree details hvar N seen E hEN n0 hn0
      have h1 := nodeStep_agree details hvar N
        (specNodeStep details seen n0).2 E hEN n1 hn1
      simp only [hopsLoop, specHopsLoop]
      rw [h0]
      dsimp only
      rw [h1]
      dsimp only
      rw [hvar e0, ← Finset.union_insert]
      exact ih (n1 :: rest) dirs (specNodeStep details
          (specNodeStep details seen n0).2 n1).2 (insert e0 E) _
        (fun v hv => by
          rcases Finset.mem_insert.mp hv with rfl | hv
          · exact he0
          · exact hEN v hv)
        (fun v hv => hnodes v (hnodesEq ▸ List.mem_cons_of_mem _ hv))
        (fun v hv => hedges v (hedgesEq ▸ List.mem_cons_of_mem _ hv))

theorem chainStr_agree (details : String → ModelDetails) (N : Finset String)
    (hvar : ∀ v, (details v).var = v) (c : MatchingChain)
    (seen E : Finset String) (hEN : ∀ v ∈ E, v ∉ N)
    (hnodes : ∀ v ∈ nodeEls c.elements, v ∈ N)
    (hedges : ∀ v ∈ edgeEls c.elements, v ∉ N) :
    agreeUpTo N (c.str details (seen ∪ E)) (specChainStr details seen c) := by
  simp only [MatchingChain.str, specChainStr]
  rcases hels : c.elements with _ | ⟨e, _ | ⟨f, rest⟩⟩
  · rw [hels] at hnodes hedges
    have h := hops_agree details N hvar c.paths [] c.directions seen E []
      hEN hnodes hedges
    dsimp only
    cases h₁ : hopsLoop details [] c.directions c.paths (seen ∪ E) [] with
    | error e₁ =>
      cases h₂ : specHopsLoop details [] c.directions c.paths seen [] with
      | error e₂ => rw [h₁, h₂] at h; exact h
      | ok r => rw [h₁, h₂] at h; exact h.elim
    | ok r₁ =>
      cases h₂ : specHopsLoop details [] c.directions c.paths seen [] with
      | error e₂ => rw [h₁, h₂] at h; exact h.elim
      | ok r₂ =>
        rw [h₁, h₂] at h
        obtain ⟨s₁, d₁⟩ := r₁
        obtain ⟨s₂, d₂⟩ := r₂
        obtain ⟨hs, E', hd, hE'⟩ := h
        exact ⟨by rw [hs], E', hd, hE'⟩
  · dsimp only
    exact ⟨rfl, E, (Finset.insert_union e seen E).symm, hEN⟩
  · rw [hels] at hnodes hedges
    have h := hops_agree details N hvar c.paths (e :: f :: rest)
      c.directions seen E [] hEN hnodes hedges
    dsimp only
    cases h₁ : hopsLoop details (e :: f :: rest) c.directions c.paths
        (seen ∪ E) [] with
    | error e₁ =>
      cases h₂ : specHopsLoop details (e :: f :: rest) c.directions c.paths
          seen [] with
      | error e₂ => rw [h₁, h₂] at h; exact h
      | ok r => rw [h₁, h₂] at h; exact h.elim
    | ok r₁ =>
      cases h₂ : specHopsLoop details (e :: f :: rest) c.directions c.paths
          seen [] with
      | error e₂ => rw [h₁, h₂] at h; exact h.elim
      | ok r₂ =>
        rw [h₁, h₂] at h
        obtain ⟨s₁, d₁⟩ := r₁
        obtain ⟨s₂, d₂⟩ := r₂
        obtain ⟨hs, E', hd, hE'⟩ := h
        exact ⟨by rw [hs], E', hd, hE'⟩

theorem renderChains_agree (details : String → ModelDetails)
    (N : Finset String) (hvar : ∀ v, (details v).var = v) :
    ∀ (cs : List MatchingChain) (seen E : Finset String),
      (∀ v ∈ E, v ∉ N) →
      (∀ c ∈ cs, ∀ v ∈ nodeEls c.elements, v ∈ N) →
      (∀ c ∈ cs, ∀ v ∈ edgeEls c.elements, v ∉ N) →
      agreeUpTo N (renderChains details (seen ∪ E) cs)
        (specRenderChains details seen cs) := by
  intro cs
  induction cs with
  | nil =>
    intro seen E hEN _ _
    exact ⟨rfl, E, rfl, hEN⟩
  | cons c cs ih =>
    intro seen E hEN hnodes hedges
    have hc := chainStr_agree details N hvar c seen E hEN
      (hnodes c (List.mem_cons_self c cs))
      (hedges c (List.mem_cons_self c cs))
    simp only [renderChains, specRenderChains]
    cases h₁ : c.str details (seen ∪ E) with
    | error e₁ =>
      cases h₂ : specChainStr details seen c with
      | error e₂ => rw [h₁, h₂] at hc; exact hc
      | ok r => rw [h₁, h₂] at hc; exact hc.elim
    | ok r₁ =>
      cases h₂ : specChainStr details seen c with
      | error e => rw [h₁, h₂] at hc; exact hc.elim
      | ok r₂ =>
        rw [h₁, h₂] at hc
        obtain ⟨s₁, d₁⟩ := r₁
        obtain ⟨s₂, d₂⟩ := r₂
        obtain ⟨hs, E', hd, hE'⟩ := hc
        subst hs
        dsimp only at hd ⊢
        subst hd
        have hrec := ih d₂ E' hE'
          (fun c' hc' => hnodes c' (List.mem_cons_of_mem c hc'))
          (fun c' hc' => hedges c' (List.mem_cons_of_mem c hc'))
        cases hr₁ : renderChains details (d₂ ∪ E') cs with
        | error e₁ =>
          cases hr₂ : specRenderChains details d₂ cs with
          | error e₂ => rw [hr₁, hr₂] at hrec; exact hrec
          | ok r => rw [hr₁, hr₂] at hrec; exact hrec.elim
        | ok rr₁ =>
          cases hr₂ : specRenderChains details d₂ cs with
          | error e => rw [hr₁, hr₂] at hrec; exact hrec.elim
          | ok rr₂ =>
            rw [hr₁, hr₂] at hrec
            obtain ⟨l₁, dd₁⟩ := rr₁
            obtain ⟨l₂, dd₂⟩ := rr₂
            obtain ⟨hl, E'', hdd, hE''⟩ := hrec
            exact ⟨by rw [hl], E'', hdd, hE''⟩

set_option maxRecDepth 100000 in
/-- C4 counterexample: a query that renders without error but violates
the claim as stated.  The variable `x` is used both for the edge of the
first chain and (re-registered with type `Human`) for the end node of
the second chain; its first *node* occurrence — the end of the second
hop — is rendered bare (`(x)`, no `(x:Human)` anywhere in the text),
because the renderer's `defined` set already contains `x` from its edge
occurrence. -/
theorem claim_C4_counterexample :
    runCalls [Call.matchCall none (some "a"),
      Call.connectedThroughCall none (some "x") none,
      Call.withCall none none,
      Call.matchCall none (some "b"),
      Call.connectedThroughCall none none none,
      Call.withCall (some (.modelType HumanT)) (some "x")] [] =
      .ok ("MATCH _p1 = (a)-[x:Human]-(_a)\n" ++
        "MATCH _p2 = (b)-[_b]-(x)\n" ++
        "RETURN a, x, _a, b, _b") ∧
    ¬ ("(x:Human)".data <:+: (("MATCH _p1 = (a)-[x:Human]-(_a)\n" ++
        "MATCH _p2 = (b)-[_b]-(x)\n" ++
        "RETURN a, x, _a, b, _b" : String)).data) :=
  ⟨rfl, by decide⟩

/-- C4 amended: (i) a chain with exactly one element renders as a
single plain node pattern `MATCH (var:Label...)`, declaring its
variable; (ii) provided no variable is used both in node position and
in edge position, the rendering of a query's chains (from a fresh,
empty `defined` set) coincides with the first-occurrence renderer
`specRenderChains`, which renders each node variable with its labels
exactly at its first node occurrence — across hop groups and across
chains — and bare at every later occurrence. -/
theorem claim_C4_first_occurrence_declaration :
    (∀ (details : String → ModelDetails) (defined : Finset String)
        (c : MatchingChain) (element : String),
      c.elements = [element] →
      c.str details defined =
        .ok ("MATCH (" ++ (details element).get_var_and_labels ++ ")" ++
          whereSuffix c.conditions, insert element defined)) ∧
    (∀ (details : String → ModelDetails) (cs : List MatchingChain),
      (∀ v, (details v).var = v) →
      (∀ c ∈ cs, ∀ v ∈ edgeEls c.elements, v ∉ queryNodeVars cs) →
      (renderChains details ∅ cs).map Prod.fst =
        (specRenderChains details ∅ cs).map Prod.fst) := by
  constructor
  · intro details defined c element hel
    simp only [MatchingChain.str, hel]
  · intro details cs hvar hdisj
    have h := renderChains_agree details (queryNodeVars cs) hvar cs ∅ ∅
      (by simp)
      (fun c hc v hv =>
        List.mem_toFinset.mpr (List.mem_flatMap.mpr ⟨c, hc, hv⟩))
      (fun c hc v hv => hdisj c hc v hv)
    rw [Finset.union_empty] at h
    cases h₁ : renderChains details ∅ cs with
    | error e₁ =>
      cases h₂ : specRenderChains details ∅ cs with
      | error e₂ => rw [h₁, h₂] at h; rw [h]
      | ok r => rw [h₁, h₂] at h; exact h.elim
    | ok r₁ =>
      cases h₂ : specRenderChains details ∅ cs with
      | error e₂ => rw [h₁, h₂] at h; exact h.elim
      | ok r₂ =>
        rw [h₁, h₂] at h
        obtain ⟨s₁, d₁⟩ := r₁
        obtain ⟨s₂, d₂⟩ := r₂
        obtain ⟨hs, _, _, _⟩ := h
        simp [Except.map, hs]

/-- Witness for the amended C4 at a concrete query: two chains
`(a)-[e1]-(b)` and `(b)-[e2]-(x)` (node/edge variables disjoint; `x`
registered with type `Human`): the code renderer and the
first-occurrence renderer produce the same text — `b` is declared in
chain 1 and referenced bare in chain 2, `x:Human` is declared at its
first occurrence; and the one-element-chain clause applied to a
concrete chain. -/
theorem claim_C4_first_occurrence_declaration_witness :
    (renderChains (fun v =>
        { var := v, type := if v = "x" then HumanT else nodeBase })
      ∅ [{ elements := ["a", "e1", "b"], directions := [Direction.NONE],
            paths := ["_p1"], conditions := [] },
          { elements := ["b", "e2", "x"], directions := [Direction.NONE],
            paths := ["_p2"], conditions := [] }]).map Prod.fst =
      (specRenderChains (fun v =>
        { var := v, type := if v = "x" then HumanT else nodeBase })
      ∅ [{ elements := ["a", "e1", "b"], directions := [Direction.NONE],
            paths := ["_p1"], conditions := [] },
          { elements := ["b", "e2", "x"], directions := [Direction.NONE],
            paths := ["_p2"], conditions := [] }]).map Prod.fst ∧
    ({ elements := ["v"], directions := [], paths := [],
        conditions := [] } : MatchingChain).str
      (fun v => { var := v, type := nodeBase }) ∅ =
      .ok ("MATCH (v)", insert "v" ∅) := by
  constructor
  · exact claim_C4_first_occurrence_declaration.2
      (fun v => { var := v, type := if v = "x" then HumanT else nodeBase })
      _ (fun v => rfl) (by decide)
  · exact (claim_C4_first_occurrence_declaration.1
      (fun v => { var := v, type := nodeBase }) ∅
      { elements := ["v"], directions := [], paths := [], conditions := [] }
      "v" rfl).trans (by rfl)
